import Mathlib

/-!
Verification of the Restricted Boltzmann Machine (RBM) training routine of the
`ml_rapid_tutorial` repository (the unsupervised-learning notebook).

The numeric arrays of the source are embedded as real-valued functions on
`Fin`-indexed types: a visible configuration is `Fin nv → ℝ`, a weight matrix is
`Fin nv → Fin nh → ℝ`, a batch is `Fin B → Fin nv → ℝ` (images are modelled
already flattened, so the source's `reshape` calls are identities).  The jax
PRNG is modelled as an abstract deterministic splittable stream: keys are
naturals, `splitKey` produces two fresh child keys, `splitKeys` produces an
indexed family of child keys, and `unif` is the per-component uniform variate
in `[0,1)` that `jax.random.bernoulli` compares against its probability
argument.  All structural properties proved below (key reuse, carry of the
persistent sample, batching arithmetic, gradient formulas) are independent of
the concrete choice of the uniform stream.
-/

noncomputable section

/-- Logistic sigmoid, `jax.nn.sigmoid x = 1 / (1 + exp (-x))`. -/
def sigmoid (x : ℝ) : ℝ := 1 / (1 + Real.exp (-x))

/-- Model of `jax.random.split(key)`: two fresh child keys.  The components are
returned in assignment order, so `k1, key = jax.random.split(key)` binds `k1`
to the first component and the carried key to the second. -/
def splitKey (k : ℕ) : ℕ × ℕ := (2 * k + 1, 2 * k + 2)

/-- Model of `jax.random.split(key, num)[i]`: the `i`-th child key (a Cantor
pairing, injective in `(k, i)`). -/
def splitKeys (k : ℕ) (i : ℕ) : ℕ := (k + i) * (k + i + 1) / 2 + i

/-- Integer core of the modelled uniform stream. -/
def unifN (k i : ℕ) : ℕ := (97 * k + 53 * i + 13) % 211

/-- Modelled uniform variate in `[0,1)` consumed by the Bernoulli sampler for
component `i` of a draw under key `k`. -/
def unif (k i : ℕ) : ℝ := (unifN k i : ℝ) / 211

/-- Model of `jax.random.bernoulli(key, p).astype(jnp.int32)`: component `i` is
`1` when the `i`-th uniform variate of the key's stream falls below `p i`,
else `0`. -/
def bern {n : ℕ} (k : ℕ) (p : Fin n → ℝ) : Fin n → ℝ :=
  fun i => if unif k i < p i then 1 else 0

/-- Matrix transpose, `jnp.transpose`. -/
def transposeM {nv nh : ℕ} (W : Fin nv → Fin nh → ℝ) : Fin nh → Fin nv → ℝ :=
  fun μ i => W i μ

/-- Matrix–vector product, `jnp.dot`. -/
def matVec {m n : ℕ} (M : Fin m → Fin n → ℝ) (x : Fin n → ℝ) : Fin m → ℝ :=
  fun r => ∑ c, M r c * x c

/-- Source `p_h_given_v(v, W, b) = jax.nn.sigmoid(b + jnp.dot(jnp.transpose(W), v))`. -/
def p_h_given_v {nv nh : ℕ} (v : Fin nv → ℝ) (W : Fin nv → Fin nh → ℝ)
    (b : Fin nh → ℝ) : Fin nh → ℝ :=
  fun μ => sigmoid (b μ + matVec (transposeM W) v μ)

/-- Source `p_v_given_h(h, W, a) = jax.nn.sigmoid(a + jnp.dot(W, h))`. -/
def p_v_given_h {nv nh : ℕ} (h : Fin nh → ℝ) (W : Fin nv → Fin nh → ℝ)
    (a : Fin nv → ℝ) : Fin nv → ℝ :=
  fun i => sigmoid (a i + matVec W h i)

/-- The intermediate hidden draw of `gibbs_step`:
`h = jax.random.bernoulli(key, p_h_given_v(v, W, b)).astype(jnp.int32)`. -/
def gibbs_hidden {nv nh : ℕ} (v : Fin nv → ℝ) (W : Fin nv → Fin nh → ℝ)
    (b : Fin nh → ℝ) (key : ℕ) : Fin nh → ℝ :=
  bern key (p_h_given_v v W b)

/-- Source `gibbs_step(v, W, a, b, key)`: draws `h` from `p(h|v)` and then the
new visible configuration from `p(v|h)`, both draws using the same `key`, as
in the source. -/
def gibbs_step {nv nh : ℕ} (v : Fin nv → ℝ) (W : Fin nv → Fin nh → ℝ)
    (a : Fin nv → ℝ) (b : Fin nh → ℝ) (key : ℕ) : Fin nv → ℝ :=
  bern key (p_v_given_h (gibbs_hidden v W b key) W a)

/-- Generalisation of `gibbs_step` with separate keys for the hidden draw
(`kh`) and the visible draw (`kv`); used to state how the source wires its
randomness. -/
def gibbs_step_keys {nv nh : ℕ} (v : Fin nv → ℝ) (W : Fin nv → Fin nh → ℝ)
    (a : Fin nv → ℝ) (b : Fin nh → ℝ) (kh kv : ℕ) : Fin nv → ℝ :=
  bern kv (p_v_given_h (gibbs_hidden v W b kh) W a)

/-- One row of `gibbs_sample`: the loop
`for j in range(n): k1, key = jax.random.split(key); sample = gibbs_step(sample, W, a, b, k1)`. -/
def gibbs_chain {nv nh : ℕ} (W : Fin nv → Fin nh → ℝ) (a : Fin nv → ℝ)
    (b : Fin nh → ℝ) : (Fin nv → ℝ) → ℕ → ℕ → Fin nv → ℝ
  | v, _, 0 => v
  | v, key, n + 1 =>
      gibbs_chain W a b (gibbs_step v W a b (splitKey key).1) (splitKey key).2 n

/-- Source `gibbs_sample(v, W, a, b, key, n)`: `jax.vmap` over the batch
dimension of `v` and `key`, each row running `n` sequential Gibbs steps. -/
def gibbs_sample {B nv nh : ℕ} (v : Fin B → Fin nv → ℝ) (W : Fin nv → Fin nh → ℝ)
    (a : Fin nv → ℝ) (b : Fin nh → ℝ) (keys : Fin B → ℕ) (n : ℕ) :
    Fin B → Fin nv → ℝ :=
  fun r => gibbs_chain W a b (v r) (keys r) n

/-- Arithmetic mean over the batch dimension, `jnp.mean(·, axis=0)`. -/
def batchMean {B : ℕ} (f : Fin B → ℝ) : ℝ := (∑ r, f r) / B

/-- Source `wgrad_helper(v, W, b) = jnp.outer(v, p_h_given_v(v, W, b))`
(one row of the vmapped helper). -/
def wgrad_helper {nv nh : ℕ} (v : Fin nv → ℝ) (W : Fin nv → Fin nh → ℝ)
    (b : Fin nh → ℝ) : Fin nv → Fin nh → ℝ :=
  fun i μ => v i * p_h_given_v v W b μ

/-- Source `bgrad_helper(v, W, b) = p_h_given_v(v, W, b)` (one row of the
vmapped helper). -/
def bgrad_helper {nv nh : ℕ} (v : Fin nv → ℝ) (W : Fin nv → Fin nh → ℝ)
    (b : Fin nh → ℝ) : Fin nh → ℝ :=
  p_h_given_v v W b

/-- Source `pcd_gradients(batch, W, a, b, key, n, modelSample)`.  When
`modelSample` is absent the sampler is seeded from the data batch itself
(`if modelSample is None: modelSample = batch`); the reshape calls of the
source are identities in this flattened embedding. -/
def pcd_gradients {B nv nh : ℕ} (batch : Fin B → Fin nv → ℝ)
    (W : Fin nv → Fin nh → ℝ) (a : Fin nv → ℝ) (b : Fin nh → ℝ)
    (key : ℕ) (n : ℕ) (modelSample : Option (Fin B → Fin nv → ℝ)) :
    (Fin nv → Fin nh → ℝ) × (Fin nv → ℝ) × (Fin nh → ℝ) × (Fin B → Fin nv → ℝ) :=
  let keys : Fin B → ℕ := fun r => splitKeys key r
  let ms : Fin B → Fin nv → ℝ := gibbs_sample (modelSample.getD batch) W a b keys n
  (fun i μ => batchMean (fun r => wgrad_helper (batch r) W b i μ)
      - batchMean (fun r => wgrad_helper (ms r) W b i μ),
   fun i => batchMean (fun r => batch r i) - batchMean (fun r => ms r i),
   fun μ => batchMean (fun r => bgrad_helper (batch r) W b μ)
      - batchMean (fun r => bgrad_helper (ms r) W b μ),
   ms)

/-- State threaded through the training loop of `train`: the parameters
`W, a, b`, the optional carried model sample `ms` (`modelSample` in the
source, `none` at loop entry), and the current PRNG key. -/
structure TrainSt (nv nh B : ℕ) where
  W : Fin nv → Fin nh → ℝ
  a : Fin nv → ℝ
  b : Fin nh → ℝ
  ms : Option (Fin B → Fin nv → ℝ)
  key : ℕ

/-- The optional model sample handed to `pcd_gradients` for one batch: the
source's `if not persistent: modelSample = None` guard. -/
def batchSeed {B nv : ℕ} (persistent : Bool) (ms : Option (Fin B → Fin nv → ℝ)) :
    Option (Fin B → Fin nv → ℝ) :=
  if persistent then ms else none

/-- One iteration of the inner batch loop of `train`: split the key, apply the
persistence guard, compute the gradients, and update each parameter additively
by `learningRate` times its gradient. -/
def trainBatchStep {nv nh B : ℕ} (lr : ℝ) (cg_n : ℕ) (persistent : Bool)
    (st : TrainSt nv nh B) (batch : Fin B → Fin nv → ℝ) : TrainSt nv nh B :=
  let g := pcd_gradients batch st.W st.a st.b (splitKey st.key).2 cg_n
    (batchSeed persistent st.ms)
  { W := fun i μ => st.W i μ + lr * g.1 i μ
    a := fun i => st.a i + lr * g.2.1 i
    b := fun μ => st.b μ + lr * g.2.2.1 μ
    ms := some g.2.2.2
    key := (splitKey st.key).1 }

/-- Position in the training set of element `j` of epoch batch `k`: the source
truncates the permuted data to `batchNumber*batchSize` elements and reshapes
into `batchNumber` consecutive batches of `batchSize`. -/
def batchPos (N B : ℕ) (k : Fin (N / B)) (j : Fin B) : Fin N :=
  ⟨k * B + j, by
    have h1 : (k : ℕ) * B + (j : ℕ) < (k : ℕ) * B + B :=
      Nat.add_lt_add_left j.2 _
    have h2 : (k : ℕ) * B + B = ((k : ℕ) + 1) * B := (Nat.succ_mul _ _).symm
    have h3 : ((k : ℕ) + 1) * B ≤ (N / B) * B := Nat.mul_le_mul_right B k.2
    have h4 : N / B * B ≤ N := Nat.div_mul_le_self N B
    omega⟩

/-- Model of `jax.random.permutation(key, data)`: an opaque key-dependent
permutation of the dataset indices. -/
def jaxPermutation (N key : ℕ) : Equiv.Perm (Fin N) :=
  (finRotate N) ^ key

/-- The shuffled batches of one epoch: the source's
`jax.random.permutation(tmp_key, trainData)[:batchNumber*batchSize].reshape(-1, batchSize, 28, 28)`,
as a family of `N / B` batches of `B` examples each. -/
def epochBatches {nv : ℕ} (N B : ℕ) (perm : Equiv.Perm (Fin N))
    (data : Fin N → Fin nv → ℝ) : Fin (N / B) → Fin B → Fin nv → ℝ :=
  fun k j => data (perm (batchPos N B k j))

/-- Epoch-entry transition of `train`: `prng_key, tmp_key = jax.random.split(prng_key)`
keeps the first child as the carried key (the second child seeds the epoch's
permutation); parameters and carried model sample are untouched. -/
def epochInit {nv nh B : ℕ} (st : TrainSt nv nh B) : TrainSt nv nh B :=
  { st with key := (splitKey st.key).1 }

/-- One epoch of `train`: draw the epoch's permutation from the second child
key, partition the permuted data into `N / B` batches, and fold the per-batch
transition over them in order. -/
def trainEpoch {nv nh B : ℕ} (N : ℕ) (data : Fin N → Fin nv → ℝ) (lr : ℝ)
    (cg_n : ℕ) (persistent : Bool) (st : TrainSt nv nh B) : TrainSt nv nh B :=
  let batches := epochBatches N B (jaxPermutation N (splitKey st.key).2) data
  (List.finRange (N / B)).foldl
    (fun s k => trainBatchStep lr cg_n persistent s (batches k)) (epochInit st)

/-- Source `train(W, a, b, trainData, learningRate, numEpochs, batchSize, cg_n,
persistent, seed)`: starting from `modelSample = None` and the seeded key,
iterate the epoch transition `numEpochs` times and return the final
parameters.  (The end-of-epoch `plot_images` call is a display side effect
outside the embedded semantics.) -/
def train {nv nh : ℕ} (N : ℕ) (W : Fin nv → Fin nh → ℝ) (a : Fin nv → ℝ)
    (b : Fin nh → ℝ) (data : Fin N → Fin nv → ℝ) (lr : ℝ) (numEpochs B cg_n : ℕ)
    (persistent : Bool) (seed : ℕ) :
    (Fin nv → Fin nh → ℝ) × (Fin nv → ℝ) × (Fin nh → ℝ) :=
  let final := (trainEpoch (B := B) N data lr cg_n persistent)^[numEpochs]
    ⟨W, a, b, none, seed⟩
  (final.W, final.a, final.b)

/-- State of the training loop at entry to epoch `e` (after `e` full epochs). -/
def stateAtEpoch {nv nh B : ℕ} (N : ℕ) (data : Fin N → Fin nv → ℝ) (lr : ℝ)
    (cg_n : ℕ) (persistent : Bool) (init : TrainSt nv nh B) (e : ℕ) :
    TrainSt nv nh B :=
  (trainEpoch (B := B) N data lr cg_n persistent)^[e] init

/-- State of the training loop inside an epoch started from `st`, after its
first `k` batches have been processed. -/
def stateInEpoch {nv nh B : ℕ} (N : ℕ) (data : Fin N → Fin nv → ℝ) (lr : ℝ)
    (cg_n : ℕ) (persistent : Bool) (st : TrainSt nv nh B) (k : ℕ) :
    TrainSt nv nh B :=
  let batches := epochBatches N B (jaxPermutation N (splitKey st.key).2) data
  ((List.finRange (N / B)).take k).foldl
    (fun s j => trainBatchStep lr cg_n persistent s (batches j)) (epochInit st)

/-- The optional model sample handed to `pcd_gradients` at epoch `e`,
batch `k` of a training run. -/
def seedUsedAt {nv nh B : ℕ} (N : ℕ) (data : Fin N → Fin nv → ℝ) (lr : ℝ)
    (cg_n : ℕ) (persistent : Bool) (init : TrainSt nv nh B) (e k : ℕ) :
    Option (Fin B → Fin nv → ℝ) :=
  batchSeed persistent
    (stateInEpoch N data lr cg_n persistent
      (stateAtEpoch N data lr cg_n persistent init e) k).ms

/-- The sigmoid takes values in `[0,1]` (lower bound). -/
theorem sigmoid_nonneg (x : ℝ) : 0 ≤ sigmoid x := by
  unfold sigmoid; positivity

/-- The sigmoid takes values in `[0,1]` (upper bound). -/
theorem sigmoid_le_one (x : ℝ) : sigmoid x ≤ 1 := by
  unfold sigmoid
  rw [div_le_one (by positivity)]
  nlinarith [Real.exp_pos (-x)]

/-- Value of the sigmoid at the origin. -/
theorem sigmoid_zero : sigmoid 0 = 1 / 2 := by
  unfold sigmoid
  rw [neg_zero, Real.exp_zero]
  norm_num

/-- A Bernoulli draw produces only the values 0 and 1. -/
theorem bern_mem {n : ℕ} (k : ℕ) (p : Fin n → ℝ) (i : Fin n) :
    bern k p i = 0 ∨ bern k p i = 1 := by
  unfold bern
  split
  · exact Or.inr rfl
  · exact Or.inl rfl

/-- C2: for every visible configuration `v`, weight matrix `W`, and hidden
bias `b`, `p_h_given_v v W b` returns for each hidden unit `μ` the value
`sigmoid (b μ + Σ i, W i μ * v i)`; symmetrically, for every hidden
configuration `h` and visible bias `a`, `p_v_given_h h W a` returns for each
visible unit `i` the value `sigmoid (a i + Σ μ, W i μ * h μ)`.  Both are
plain functions of their arguments (the embedding is purely functional, as is
the source: neither touches any state). -/
theorem C2_conditional_probabilities {nv nh : ℕ} (v : Fin nv → ℝ)
    (h : Fin nh → ℝ) (W : Fin nv → Fin nh → ℝ) (a : Fin nv → ℝ)
    (b : Fin nh → ℝ) :
    (∀ μ, p_h_given_v v W b μ = sigmoid (b μ + ∑ i, W i μ * v i)) ∧
    (∀ i, p_v_given_h h W a i = sigmoid (a i + ∑ μ, W i μ * h μ)) :=
  ⟨fun _ => rfl, fun _ => rfl⟩

/-- C10: with chain length `n = 0` the per-row loop of `gibbs_sample` runs no
Gibbs step, so the sampler returns its input batch unchanged for every batch,
parameter setting and key family. -/
theorem C10_gibbs_sample_zero_steps {B nv nh : ℕ} (v : Fin B → Fin nv → ℝ)
    (W : Fin nv → Fin nh → ℝ) (a : Fin nv → ℝ) (b : Fin nh → ℝ)
    (keys : Fin B → ℕ) :
    gibbs_sample v W a b keys 0 = v := rfl

/-- C9: every entry of the configuration returned by `gibbs_step` is 0 or 1;
the intermediate hidden draw of the step likewise has entries only in `{0,1}`;
and the probability intermediates `p_h_given_v` (evaluated inside the step)
and `p_v_given_h` (evaluated at any hidden configuration, in particular the
drawn one) lie in `[0,1]`. -/
theorem C9_gibbs_step_binary {nv nh : ℕ} (v : Fin nv → ℝ)
    (W : Fin nv → Fin nh → ℝ) (a : Fin nv → ℝ) (b : Fin nh → ℝ) (key : ℕ) :
    (∀ i, gibbs_step v W a b key i = 0 ∨ gibbs_step v W a b key i = 1) ∧
    (∀ μ, gibbs_hidden v W b key μ = 0 ∨ gibbs_hidden v W b key μ = 1) ∧
    (∀ μ, 0 ≤ p_h_given_v v W b μ ∧ p_h_given_v v W b μ ≤ 1) ∧
    (∀ (h : Fin nh → ℝ) (i : Fin nv),
      0 ≤ p_v_given_h h W a i ∧ p_v_given_h h W a i ≤ 1) :=
  ⟨fun i => bern_mem _ _ i,
   fun μ => bern_mem _ _ μ,
   fun _ => ⟨sigmoid_nonneg _, sigmoid_le_one _⟩,
   fun _ _ => ⟨sigmoid_nonneg _, sigmoid_le_one _⟩⟩

/-- C1: `pcd_gradients` returns exactly the three contrastive-divergence
gradients — `W_grad` the batch mean over the data batch of the outer product
of `v` with `p_h_given_v v W b` minus the same mean over the model batch,
`a_grad` the mean of `v` over the data batch minus over the model batch,
`b_grad` the mean of `p_h_given_v v W b` over the data batch minus over the
model batch — together with the model-side sample batch produced by the
sampler, all means being arithmetic means over the batch dimension. -/
theorem C1_pcd_gradients_formula {B nv nh : ℕ} (batch : Fin B → Fin nv → ℝ)
    (W : Fin nv → Fin nh → ℝ) (a : Fin nv → ℝ) (b : Fin nh → ℝ)
    (key n : ℕ) (modelSample : Option (Fin B → Fin nv → ℝ)) :
    ((pcd_gradients batch W a b key n modelSample).1 = fun i μ =>
        batchMean (fun r => batch r i * p_h_given_v (batch r) W b μ)
          - batchMean (fun r =>
              gibbs_sample (modelSample.getD batch) W a b
                (fun s => splitKeys key s) n r i
              * p_h_given_v
                  (gibbs_sample (modelSample.getD batch) W a b
                    (fun s => splitKeys key s) n r) W b μ)) ∧
    ((pcd_gradients batch W a b key n modelSample).2.1 = fun i =>
        batchMean (fun r => batch r i)
          - batchMean (fun r =>
              gibbs_sample (modelSample.getD batch) W a b
                (fun s => splitKeys key s) n r i)) ∧
    ((pcd_gradients batch W a b key n modelSample).2.2.1 = fun μ =>
        batchMean (fun r => p_h_given_v (batch r) W b μ)
          - batchMean (fun r =>
              p_h_given_v
                (gibbs_sample (modelSample.getD batch) W a b
                  (fun s => splitKeys key s) n r) W b μ)) ∧
    (pcd_gradients batch W a b key n modelSample).2.2.2 =
      gibbs_sample (modelSample.getD batch) W a b
        (fun s => splitKeys key s) n :=
  ⟨rfl, rfl, rfl, rfl⟩

/-- C3: within a single call to `gibbs_step` the same key is passed to both
the hidden-unit Bernoulli draw and the subsequent visible-unit draw (the step
equals the two-key generalisation with both keys set to the call's key), and
the draws are not given independent split streams: feeding the two children
of `splitKey` instead changes the result on a concrete input. -/
theorem C3_gibbs_step_key_reuse :
    (∀ (nv nh : ℕ) (v : Fin nv → ℝ) (W : Fin nv → Fin nh → ℝ) (a : Fin nv → ℝ)
        (b : Fin nh → ℝ) (key : ℕ),
      gibbs_step v W a b key = gibbs_step_keys v W a b key key) ∧
    gibbs_step (fun _ => 0 : Fin 1 → ℝ) (fun _ _ => 0 : Fin 1 → Fin 1 → ℝ)
        (fun _ => 0) (fun _ => 0) 0 ≠
      gibbs_step_keys (fun _ => 0 : Fin 1 → ℝ)
        (fun _ _ => 0 : Fin 1 → Fin 1 → ℝ) (fun _ => 0) (fun _ => 0)
        (splitKey 0).1 (splitKey 0).2 := by
  refine ⟨fun _ _ _ _ _ _ _ => rfl, fun hEq => ?_⟩
  have h0 := congrFun hEq 0
  norm_num [gibbs_step, gibbs_step_keys, gibbs_hidden, bern, p_v_given_h,
    p_h_given_v, matVec, transposeM, splitKey, sigmoid_zero, unif, unifN] at h0

/-- C8: if the model-side batch produced by the sampler inside
`pcd_gradients` coincides with the data batch, all three returned gradients
are exactly zero (and the returned sample batch is the data batch). -/
theorem C8_zero_gradients {B nv nh : ℕ} (batch : Fin B → Fin nv → ℝ)
    (W : Fin nv → Fin nh → ℝ) (a : Fin nv → ℝ) (b : Fin nh → ℝ) (key n : ℕ)
    (modelSample : Option (Fin B → Fin nv → ℝ))
    (hms : gibbs_sample (modelSample.getD batch) W a b
      (fun r => splitKeys key r) n = batch) :
    ((pcd_gradients batch W a b key n modelSample).1 = fun _ _ => 0) ∧
    ((pcd_gradients batch W a b key n modelSample).2.1 = fun _ => 0) ∧
    ((pcd_gradients batch W a b key n modelSample).2.2.1 = fun _ => 0) ∧
    (pcd_gradients batch W a b key n modelSample).2.2.2 = batch := by
  simp only [pcd_gradients]
  rw [hms]
  exact ⟨funext fun i => funext fun μ => sub_self _,
         funext fun i => sub_self _,
         funext fun μ => sub_self _, rfl⟩

/-- Witness for C8: with chain length 0 the sampler is the identity, so the
hypothesis holds definitionally and the gradients vanish at a concrete
instance. -/
theorem C8_zero_gradients_witness :
    (gibbs_sample ((none : Option (Fin 1 → Fin 1 → ℝ)).getD (fun _ _ => 0))
        (fun _ _ => 0 : Fin 1 → Fin 1 → ℝ) (fun _ => 0) (fun _ => 0)
        (fun r => splitKeys 0 r) 0
      = fun _ _ => 0) ∧
    ((pcd_gradients (fun _ _ => 0 : Fin 1 → Fin 1 → ℝ)
        (fun _ _ => 0 : Fin 1 → Fin 1 → ℝ)
        (fun _ => 0) (fun _ => 0) 0 0 none).1 = fun _ _ => 0) ∧
    ((pcd_gradients (fun _ _ => 0 : Fin 1 → Fin 1 → ℝ)
        (fun _ _ => 0 : Fin 1 → Fin 1 → ℝ)
        (fun _ => 0) (fun _ => 0) 0 0 none).2.1 = fun _ => 0) ∧
    ((pcd_gradients (fun _ _ => 0 : Fin 1 → Fin 1 → ℝ)
        (fun _ _ => 0 : Fin 1 → Fin 1 → ℝ)
        (fun _ => 0) (fun _ => 0) 0 0 none).2.2.1 = fun _ => 0) ∧
    (pcd_gradients (fun _ _ => 0 : Fin 1 → Fin 1 → ℝ)
        (fun _ _ => 0 : Fin 1 → Fin 1 → ℝ)
        (fun _ => 0) (fun _ => 0) 0 0 none).2.2.2 = fun _ _ => 0 :=
  ⟨rfl, C8_zero_gradients (fun _ _ => 0) (fun _ _ => 0) (fun _ => 0)
    (fun _ => 0) 0 0 none rfl⟩

/-- C4: across one per-batch transition the parameters change by exactly the
learning rate times the returned gradients (additive sign convention), and no
other operation of the loop mutates them: the epoch-entry transition leaves
`W, a, b` unchanged, an epoch is exactly the fold of the per-batch transition
over the epoch's batches, and `train` is exactly the iterate of the epoch
transition. -/
theorem C4_parameter_update {nv nh B N : ℕ} (lr : ℝ) (cg_n : ℕ)
    (persistent : Bool) (st : TrainSt nv nh B) (batch : Fin B → Fin nv → ℝ)
    (data : Fin N → Fin nv → ℝ) (W0 : Fin nv → Fin nh → ℝ) (a0 : Fin nv → ℝ)
    (b0 : Fin nh → ℝ) (numEpochs seed : ℕ) :
    ((trainBatchStep lr cg_n persistent st batch).W = fun i μ =>
        st.W i μ + lr * (pcd_gradients batch st.W st.a st.b (splitKey st.key).2
          cg_n (batchSeed persistent st.ms)).1 i μ) ∧
    ((trainBatchStep lr cg_n persistent st batch).a = fun i =>
        st.a i + lr * (pcd_gradients batch st.W st.a st.b (splitKey st.key).2
          cg_n (batchSeed persistent st.ms)).2.1 i) ∧
    ((trainBatchStep lr cg_n persistent st batch).b = fun μ =>
        st.b μ + lr * (pcd_gradients batch st.W st.a st.b (splitKey st.key).2
          cg_n (batchSeed persistent st.ms)).2.2.1 μ) ∧
    ((epochInit st).W = st.W ∧ (epochInit st).a = st.a ∧
      (epochInit st).b = st.b) ∧
    (trainEpoch N data lr cg_n persistent st =
      (List.finRange (N / B)).foldl
        (fun s k => trainBatchStep lr cg_n persistent s
          (epochBatches N B (jaxPermutation N (splitKey st.key).2) data k))
        (epochInit st)) ∧
    (train N W0 a0 b0 data lr numEpochs B cg_n persistent seed =
      (((trainEpoch (B := B) N data lr cg_n persistent)^[numEpochs]
          ⟨W0, a0, b0, none, seed⟩).W,
       ((trainEpoch (B := B) N data lr cg_n persistent)^[numEpochs]
          ⟨W0, a0, b0, none, seed⟩).a,
       ((trainEpoch (B := B) N data lr cg_n persistent)^[numEpochs]
          ⟨W0, a0, b0, none, seed⟩).b)) :=
  ⟨rfl, rfl, rfl, ⟨rfl, rfl, rfl⟩, rfl, rfl⟩

/-- Counterexample to C5: in persistent mode the carried model sample is not
reset at the start of every epoch.  In a concrete two-epoch run (one batch per
epoch) the optional model sample handed to the gradient estimator at entry to
the second epoch's first batch is not `none`, i.e. the estimator does not
reseed from that data batch but from the sample carried over from the previous
epoch.  (`modelSample = None` is set only once, before the epoch loop.) -/
theorem C5_counterexample :
    seedUsedAt 1 (fun _ _ => 0 : Fin 1 → Fin 1 → ℝ) 0 1 true
      (⟨fun _ _ => 0, fun _ => 0, fun _ => 0, none, 0⟩ : TrainSt 1 1 1) 1 0
      ≠ none := by
  rw [Option.ne_none_iff_isSome]
  rfl

/-- C5 (amended): when `persistent = true` the carried model sample is handed
unchanged to the gradient estimator at every batch (within an epoch and across
epoch boundaries alike), the epoch-entry transition never resets it, and only
the very first batch of training (epoch 0, batch 0) sees `none` and hence
reseeds from its data batch. -/
theorem C5_persistent_carry {nv nh B N : ℕ} (st : TrainSt nv nh B)
    (data : Fin N → Fin nv → ℝ) (lr : ℝ) (cg_n : ℕ)
    (W : Fin nv → Fin nh → ℝ) (a : Fin nv → ℝ) (b : Fin nh → ℝ) (seed : ℕ) :
    batchSeed true st.ms = st.ms ∧
    (epochInit st).ms = st.ms ∧
    seedUsedAt (B := B) N data lr cg_n true ⟨W, a, b, none, seed⟩ 0 0 = none :=
  ⟨rfl, rfl, rfl⟩

/-- Counterexample to C6: the training loop performs no configuration
validation and cannot surface a configuration-error report — the embedded
semantics of `train` is a total function with no error outcome, faithfully to
the source, which contains no check and no raise.  With a batch size (2)
exceeding the dataset size (1) a concrete run completes normally and returns
the parameters as an ordinary value instead of reporting an error. -/
theorem C6_counterexample :
    train 1 (fun _ _ => 5 : Fin 1 → Fin 1 → ℝ) (fun _ => 3) (fun _ => 4)
      (fun _ _ => 0) 1 1 2 2 false 7
      = (fun _ _ => 5, fun _ => 3, fun _ => 4) := rfl

/-- C6 (amended): the code performs no configuration validation and surfaces
no error report.  When the batch size exceeds the dataset size, each epoch
partitions into zero batches, so training silently completes and returns
`W, a, b` untouched; mismatched shapes are ruled out by the embedding's types,
and a non-positive chain length is likewise accepted silently. -/
theorem C6_oversized_batch_leaves_params {nv nh : ℕ} (N B : ℕ) (hNB : N < B)
    (W : Fin nv → Fin nh → ℝ) (a : Fin nv → ℝ) (b : Fin nh → ℝ)
    (data : Fin N → Fin nv → ℝ) (lr : ℝ) (numEpochs cg_n : ℕ)
    (persistent : Bool) (seed : ℕ) :
    train N W a b data lr numEpochs B cg_n persistent seed = (W, a, b) := by
  have hdiv : N / B = 0 := Nat.div_eq_of_lt hNB
  have hnil : (List.finRange (N / B) : List (Fin (N / B))) = [] :=
    List.eq_nil_of_length_eq_zero (by rw [List.length_finRange, hdiv])
  have hep : ∀ st : TrainSt nv nh B,
      trainEpoch N data lr cg_n persistent st = epochInit st := by
    intro st
    simp only [trainEpoch, hnil, List.foldl_nil]
  have hiter : ∀ (e : ℕ) (st : TrainSt nv nh B),
      (((trainEpoch (B := B) N data lr cg_n persistent)^[e]) st).W = st.W ∧
      (((trainEpoch (B := B) N data lr cg_n persistent)^[e]) st).a = st.a ∧
      (((trainEpoch (B := B) N data lr cg_n persistent)^[e]) st).b = st.b := by
    intro e
    induction e with
    | zero => exact fun st => ⟨rfl, rfl, rfl⟩
    | succ e ih =>
        intro st
        rw [Function.iterate_succ_apply, hep st]
        exact ih (epochInit st)
  obtain ⟨h1, h2, h3⟩ := hiter numEpochs ⟨W, a, b, none, seed⟩
  simp only [train]
  rw [h1, h2, h3]

/-- Witness for C6 (amended): a concrete run with batch size 2 on a dataset of
size 1 returns the initial parameters unchanged. -/
theorem C6_oversized_batch_witness :
    (1 < 2) ∧
    train 1 (fun _ _ => 9 : Fin 1 → Fin 1 → ℝ) (fun _ => 8) (fun _ => 7)
      (fun _ _ => 1) 1 3 2 5 true 11
      = (fun _ _ => 9, fun _ => 8, fun _ => 7) :=
  ⟨by norm_num,
   C6_oversized_batch_leaves_params 1 2 (by norm_num) (fun _ _ => 9)
     (fun _ => 8) (fun _ => 7) (fun _ _ => 1) 1 3 5 true 11⟩

/-- C7: each epoch applies a permutation of the training set and partitions it
into exactly `N / B` batches of exactly `B` examples each (the types of
`epochBatches` index batches by `Fin (N / B)` and positions by `Fin B`): the
assignment of dataset elements to batch slots is injective (no example is
used twice), every slot reads from the first `N / B * B` positions of the
permuted sequence, the remaining `N % B` examples are excluded, an epoch of
`train` folds over exactly these batches with a permutation drawn from the
epoch's fresh key, and for `N = 1000`, `B = 128` there are exactly 7 batches
with 104 examples excluded. -/
theorem C7_epoch_batching {nv nh : ℕ} (N B : ℕ) (hBN : B ≤ N)
    (perm : Equiv.Perm (Fin N)) (data : Fin N → Fin nv → ℝ) :
    (Function.Injective fun p : Fin (N / B) × Fin B =>
      perm (batchPos N B p.1 p.2)) ∧
    (∀ k j, epochBatches N B perm data k j = data (perm (batchPos N B k j))) ∧
    (∀ k j, (batchPos N B k j : ℕ) < N / B * B) ∧
    N / B * B + N % B = N ∧
    (∀ (lr : ℝ) (cg_n : ℕ) (pers : Bool) (st : TrainSt nv nh B),
      trainEpoch N data lr cg_n pers st =
        (List.finRange (N / B)).foldl
          (fun s k => trainBatchStep lr cg_n pers s
            (epochBatches N B (jaxPermutation N (splitKey st.key).2) data k))
          (epochInit st)) ∧
    (1000 / 128 = 7 ∧ 1000 % 128 = 104) := by
  refine ⟨?_, fun _ _ => rfl, ?_, by rw [mul_comm]; exact Nat.div_add_mod N B,
    fun _ _ _ _ => rfl, by norm_num, by norm_num⟩
  · rintro ⟨k1, j1⟩ ⟨k2, j2⟩ hEq
    have hB : 0 < B := j1.pos
    have hval : (k1 : ℕ) * B + (j1 : ℕ) = (k2 : ℕ) * B + (j2 : ℕ) :=
      congrArg Fin.val (perm.injective hEq)
    have hdiv : ∀ (k j : ℕ), j < B → (k * B + j) / B = k := by
      intro k j hj
      rw [mul_comm, Nat.mul_add_div hB, Nat.div_eq_of_lt hj, Nat.add_zero]
    have hmod : ∀ (k j : ℕ), j < B → (k * B + j) % B = j := by
      intro k j hj
      rw [mul_comm, Nat.mul_add_mod, Nat.mod_eq_of_lt hj]
    have hk : (k1 : ℕ) = (k2 : ℕ) := by
      have := congrArg (fun m => m / B) hval
      simpa [hdiv _ _ j1.2, hdiv _ _ j2.2] using this
    have hj : (j1 : ℕ) = (j2 : ℕ) := by
      have := congrArg (fun m => m % B) hval
      simpa [hmod _ _ j1.2, hmod _ _ j2.2] using this
    exact Prod.ext (Fin.ext hk) (Fin.ext hj)
  · intro k j
    have h1 : (k : ℕ) * B + (j : ℕ) < (k : ℕ) * B + B :=
      Nat.add_lt_add_left j.2 _
    have h2 : (k : ℕ) * B + B = ((k : ℕ) + 1) * B := (Nat.succ_mul _ _).symm
    have h3 : ((k : ℕ) + 1) * B ≤ (N / B) * B := Nat.mul_le_mul_right B k.2
    have hval : (batchPos N B k j : ℕ) = (k : ℕ) * B + (j : ℕ) := rfl
    omega

/-- Witness for C7: the batching facts at the spec's concrete instance
`N = 1000`, `B = 128`. -/
theorem C7_epoch_batching_witness :
    (128 ≤ 1000) ∧
    (Function.Injective fun p : Fin (1000 / 128) × Fin 128 =>
      (jaxPermutation 1000 0) (batchPos 1000 128 p.1 p.2)) :=
  ⟨by norm_num,
   (@C7_epoch_batching 1 1 1000 128 (by norm_num)
     (jaxPermutation 1000 0) (fun _ _ => 0)).1⟩

end

